import Mathlib

/- Verification development for the PDF Accessibility UI repository.

   It shallow-embeds, directly from the source files:
   - the JavaScript string primitives used by the UI code (first-occurrence
     string replace, global regex replace over single characters, trim,
     lastIndexOf, substring clamping);
   - the ProcessingContainer polling state machine (checkFileAvailability,
     the three browser intervals, the polling-attempt cap);
   - the truncateFilename helper of ProcessingContainer;
   - the normalizePdfFilename pipeline of RemediatedFilesContainer;
   - the AccessibilityChecker report-fetch retry loop;
   - the CdkBackendStack bucket-context resolution and the Cognito custom
     attribute configuration;
   - the deploy.sh CodeBuild wait loop.  -/

/-- JS whitespace class: the characters matched by the regex class `\s`
(and removed by `String.prototype.trim`): space, tab, LF, VT, FF, CR, NBSP,
Ogham space, the U+2000..U+200A range, LS, PS, NNBSP, MMSP, ideographic
space and the BOM. -/
def jsWs (c : Char) : Bool :=
  c = ' ' || c = '\t' || c = '\n' || c = '\r' ||
  c.val = 11 || c.val = 12 || c.val = 160 || c.val = 5760 ||
  (8192 ≤ c.val && c.val ≤ 8202) || c.val = 8232 || c.val = 8233 ||
  c.val = 8239 || c.val = 8287 || c.val = 12288 || c.val = 65279

/-- The character class `[A-Za-z0-9_]` of the user/timestamp regex in
`normalizePdfFilename` (Header.jsx source, RemediatedFilesContainer). -/
def isWordChar (c : Char) : Bool := c.isAlpha || c.isDigit || c = '_'

/-- JS `String.prototype.replace` with a plain-string pattern: replaces the
first occurrence of `pat` by `rep`, scanning left to right. -/
def jsReplaceFirstL (pat rep : List Char) : List Char → List Char
  | [] => []
  | c :: cs =>
    if pat.isPrefixOf (c :: cs) then rep ++ (c :: cs).drop pat.length
    else c :: jsReplaceFirstL pat rep cs

/-- Split a character list at the first occurrence of `pat`, returning the
part before the occurrence and the part after it. -/
def splitAtFirstOcc (pat : List Char) : List Char → Option (List Char × List Char)
  | [] => none
  | c :: cs =>
    if pat.isPrefixOf (c :: cs) then some ([], (c :: cs).drop pat.length)
    else
      match splitAtFirstOcc pat cs with
      | some (a, b) => some (c :: a, b)
      | none => none

/-- JS `replace(/\s/g, '_')` from the html-format object key computation in
ProcessingContainer: every whitespace character becomes an underscore. -/
def wsToUnderscores (l : List Char) : List Char :=
  l.map (fun c => if jsWs c then '_' else c)

/-- JS `trim()`: drop leading and trailing whitespace. -/
def jsTrimL (l : List Char) : List Char :=
  ((l.dropWhile jsWs).reverse.dropWhile jsWs).reverse

/-- Auxiliary for JS `lastIndexOf`: index of the last occurrence of `c`. -/
def jsLastIndexOfAux (c : Char) : List Char → Option Nat
  | [] => none
  | x :: xs =>
    match jsLastIndexOfAux c xs with
    | some i => some (i + 1)
    | none => if x = c then some 0 else none

/-- JS `String.prototype.lastIndexOf` for a single character: the index of
its last occurrence, or `-1` when absent. -/
def jsLastIndexOf (l : List Char) (c : Char) : Int :=
  match jsLastIndexOfAux c l with
  | some i => (i : Int)
  | none => -1

/- ------------------------------------------------------------------
   CdkBackendStack (CDK backend stack source): bucket context resolution
   and the Cognito user pool custom attributes.
   ------------------------------------------------------------------ -/

/-- JS `this.node.tryGetContext(key) || "Null"`: an absent or empty (falsy)
context value defaults to the literal string `"Null"`. -/
def jsOrNullDefault (ctx : Option String) : String :=
  match ctx with
  | some s => if s = "" then "Null" else s
  | none => "Null"

/-- The bucket-name validation at the top of the CdkBackendStack
constructor: both context values are defaulted with `|| "Null"` and then the
constructor throws when both are falsy. -/
def cdkBucketValidation (a b : Option String) : Except String (String × String) :=
  let pdfB := jsOrNullDefault a
  let htmlB := jsOrNullDefault b
  if pdfB = "" ∧ htmlB = "" then
    Except.error ("At least one bucket name is required!")
  else Except.ok (pdfB, htmlB)

/-- The type of a Cognito custom attribute in the CDK stack. -/
inductive CognitoAttrType
  | boolean
  | number
  | string
deriving DecidableEq

/-- One entry of the `customAttributes` map of the user pool. -/
structure CognitoCustomAttr where
  name : String
  attrType : CognitoAttrType
  isMutable : Bool
deriving DecidableEq

/-- The `customAttributes` map passed to the `PDF-Accessability-User-Pool`
user pool in CdkBackendStack, in source order. -/
def cdkCustomAttributes : List CognitoCustomAttr :=
  [ ⟨"first_sign_in", CognitoAttrType.boolean, true⟩,
    ⟨"total_files_uploaded", CognitoAttrType.number, true⟩,
    ⟨"max_files_allowed", CognitoAttrType.number, true⟩,
    ⟨"max_pages_allowed", CognitoAttrType.number, true⟩,
    ⟨"max_size_allowed_MB", CognitoAttrType.number, true⟩,
    ⟨"organization", CognitoAttrType.string, true⟩,
    ⟨"country", CognitoAttrType.string, true⟩,
    ⟨"state", CognitoAttrType.string, true⟩,
    ⟨"city", CognitoAttrType.string, true⟩,
    ⟨"pdf2pdf", CognitoAttrType.number, true⟩,
    ⟨"pdf2html", CognitoAttrType.number, true⟩ ]

/- ------------------------------------------------------------------
   deploy.sh: the backend/frontend CodeBuild wait loop.
   ------------------------------------------------------------------ -/

/-- Seconds slept between two `batch-get-builds` status reads in deploy.sh. -/
def BUILD_POLL_SLEEP_SECONDS : Nat := 15

/-- Result of the deploy.sh wait loop: how many status reads were issued,
the total seconds slept, and the final value of `BUILD_STATUS`. -/
structure WaitResult where
  polls : Nat
  sleptSeconds : Nat
  status : String
deriving DecidableEq

/-- The `while [ "$BUILD_STATUS" = "IN_PROGRESS" ]` loop of deploy.sh:
`BUILD_STATUS` starts as `IN_PROGRESS`; each iteration sleeps 15 seconds and
re-reads the status. `poll i` is the status returned by the i-th read and
`fuel` bounds the number of iterations modelled. -/
def backendWaitGo (poll : Nat → String) (i : Nat) : Nat → WaitResult
  | 0 => ⟨0, 0, "IN_PROGRESS"⟩
  | fuel + 1 =>
    let s := poll i
    if s = "IN_PROGRESS" then
      let r := backendWaitGo poll (i + 1) fuel
      ⟨r.polls + 1, r.sleptSeconds + BUILD_POLL_SLEEP_SECONDS, r.status⟩
    else ⟨1, BUILD_POLL_SLEEP_SECONDS, s⟩

/-- The wait loop started from the script's initial state. -/
def backendWaitLoop (poll : Nat → String) (fuel : Nat) : WaitResult :=
  backendWaitGo poll 0 fuel

/-- What deploy.sh does right after the backend wait loop terminates. -/
inductive DeployNext
  | createAndStartFrontend
  | exitWithFailure (code : Nat)
deriving DecidableEq

/-- The `if [ "$BUILD_STATUS" != "SUCCEEDED" ]; then ... exit 1; fi` check
after the backend wait loop, followed on success by the creation and start
of the frontend CodeBuild project. -/
def deployAfterBackendWait (st : String) : DeployNext :=
  if st ≠ "SUCCEEDED" then DeployNext.exitWithFailure 1
  else DeployNext.createAndStartFrontend

/- ------------------------------------------------------------------
   AccessibilityChecker (Header.jsx source): report keys and the
   fetchBeforeReport / fetchAfterReport retry loops.
   ------------------------------------------------------------------ -/

/-- JS `replace(/\.pdf$/i, "")`: strip a final case-insensitive `.pdf`. -/
def stripPdfExtCI (s : String) : String :=
  let l := s.data
  if 4 ≤ l.length ∧ (l.drop (l.length - 4)).map Char.toLower = (".pdf").data
  then ⟨l.take (l.length - 4)⟩ else s

/-- JS `updatedFilename ? updatedFilename.replace(/\.pdf$/i, "") : ""`. -/
def updatedFileKeyWithoutExt (updatedFilename : String) : String :=
  if updatedFilename = "" then "" else stripPdfExtCI updatedFilename

/-- The S3 key of the before-remediation accessibility report. -/
def beforeReportKeyOf (u : String) : String :=
  let base := updatedFileKeyWithoutExt u
  "temp/" ++ base ++ "/accessability-report/" ++ base ++
    "_accessibility_report_before_remidiation.json"

/-- The S3 key of the after-remediation accessibility report. -/
def afterReportKeyOf (u : String) : String :=
  let base := updatedFileKeyWithoutExt u
  "temp/" ++ base ++ "/accessability-report/COMPLIANT_" ++ base ++
    "_accessibility_report_after_remidiation.json"

/-- Milliseconds awaited between two failed report-fetch attempts. -/
def RETRY_DELAY_MS : Nat := 2000

/-- The default value of the `retries` parameter of `fetchBeforeReport`
and `fetchAfterReport`. -/
def DEFAULT_REPORT_RETRIES : Nat := 3

/-- Observable outcome of one invocation of the report-fetch loop:
attempts actually made, the delays awaited between failed attempts, whether
the report state and pre-signed URL state were set, and whether an error
escaped to the caller. -/
structure FetchOutcome where
  attempts : Nat
  delays : List Nat
  reportSet : Bool
  urlSet : Bool
  raised : Bool
deriving DecidableEq

/-- The `for (let attempt = 1; attempt <= retries; attempt++)` body of
`fetchBeforeReport` / `fetchAfterReport`: on success the report state and
pre-signed URL are set and the function returns; on failure the error is
logged and, when attempts remain, a 2-second delay is awaited. `ok t` says
whether the t-th attempt's S3 fetch succeeds. -/
def fetchLoopGo (ok : Nat → Bool) (idx : Nat) : Nat → FetchOutcome
  | 0 => ⟨0, [], false, false, false⟩
  | remaining + 1 =>
    if ok idx then ⟨1, [], true, true, false⟩
    else
      let r := fetchLoopGo ok (idx + 1) remaining
      ⟨r.attempts + 1, (if 0 < remaining then [RETRY_DELAY_MS] else []) ++ r.delays,
        r.reportSet, r.urlSet, r.raised⟩

/-- A whole invocation of `fetchBeforeReport` / `fetchAfterReport`: the
function returns immediately when the S3 client is not initialized,
otherwise it runs the attempt loop starting at attempt 1. -/
def fetchReportRun (ok : Nat → Bool) (s3Present : Bool) (retries : Nat) : FetchOutcome :=
  if s3Present then fetchLoopGo ok 1 retries else ⟨0, [], false, false, false⟩

/- ------------------------------------------------------------------
   ProcessingContainer.jsx: object keys, download filenames, the
   polling state machine, and truncateFilename.
   ------------------------------------------------------------------ -/

/-- JS `updatedFilename.replace('.pdf', '.zip')` from ProcessingContainer:
plain-string replace of the first `.pdf` occurrence. -/
def pdfToZipFirst (l : List Char) : List Char :=
  jsReplaceFirstL ((".pdf").data) ((".zip").data) l

/-- The S3 object key polled by `checkFileAvailability`, depending on the
selected output format. -/
def objectKeyOf (fmt name : String) : String :=
  if fmt = "html" then
    ⟨("remediated/final_").data ++ wsToUnderscores (pdfToZipFirst name.data)⟩
  else ⟨("result/COMPLIANT_").data ++ name.data⟩

/-- The download filename attached to the pre-signed URL on success. -/
def desiredFilenameOf (fmt orig : String) : String :=
  if fmt = "html" then ⟨("final_").data ++ pdfToZipFirst orig.data⟩
  else ⟨("COMPLIANT_").data ++ orig.data⟩

/-- First occurrence of `.pdf` replaced by `.zip`, written as the claim
words it: the text before the first occurrence, then `.zip`, then the text
after the occurrence. -/
def claimPdfToZip (l : List Char) : List Char :=
  match splitAtFirstOcc ((".pdf").data) l with
  | some (a, b) => a ++ (".zip").data ++ b
  | none => l

/-- The polled object key as the claim describes it. -/
def claimObjectKey (fmt name : String) : String :=
  if fmt = "html" then
    ⟨("remediated/final_").data ++ wsToUnderscores (claimPdfToZip name.data)⟩
  else ⟨("result/COMPLIANT_").data ++ name.data⟩

/-- The constant `MAX_POLLING_ATTEMPTS` in `checkFileAvailability`. -/
def MAX_POLLING_ATTEMPTS : Nat := 120

/-- Milliseconds between two `checkFileAvailability` interval callbacks. -/
def FILE_CHECK_INTERVAL_MS : Nat := 15000

/-- Milliseconds between two elapsed-time interval callbacks. -/
def ELAPSED_TIME_INTERVAL_MS : Nat := 1000

/-- Milliseconds between two step-animation interval callbacks. -/
def STEP_ANIMATION_INTERVAL_MS : Nat := 1200

/-- The `processingSteps` array of ProcessingContainer. -/
def processingSteps : List (String × String) :=
  [ ("Analyzing Document Structure", "Scanning PDF for accessibility issues"),
    ("Adding Accessibility Tags", "Implementing WCAG 2.1 compliance"),
    ("Adding Metadata", "Final accessibility enhancements"),
    ("Generating Accessible PDF", "Creating your accessible PDF document") ]

/-- The props and ambient values `checkFileAvailability` closes over.
`presign` models `getSignedUrl` of the AWS SDK, which signs a GetObject
request locally from bucket, key and download filename. -/
structure PCConfig where
  selectedFormat : String
  updatedFilename : String
  originalFileName : String
  pdfBucketName : String
  htmlBucketName : String
  presign : String → String → String → String

/-- The bucket choice `selectedFormat === 'html' ? HTMLBucket : PDFBucket`. -/
def selectedBucketOf (cfg : PCConfig) : String :=
  if cfg.selectedFormat = "html" then cfg.htmlBucketName else cfg.pdfBucketName

/-- The component state touched by the polling effect, plus two histories:
the URLs passed to `onFileReady` and the number of `HeadObjectCommand`
existence checks issued. -/
structure PCState where
  pollingAttempts : Nat
  fileIntervalActive : Bool
  timeIntervalActive : Bool
  stepIntervalActive : Bool
  isFileReady : Bool
  downloadUrl : String
  currentStep : Nat
  notified : List String
  checksIssued : Nat
deriving DecidableEq

/-- State right after the effect body starts the three intervals for a new
file (`setPollingAttempts(0)` and the three `setInterval` calls). -/
def initialPCState : PCState :=
  ⟨0, true, true, true, false, "", 0, [], 0⟩

/-- The calls `clearInterval(intervalId); clearInterval(timeIntervalId);
clearInterval(stepIntervalId)`. -/
def clearAllIntervals (s : PCState) : PCState :=
  { s with fileIntervalActive := false, timeIntervalActive := false,
           stepIntervalActive := false }

/-- Per-callback environment: whether AWS credentials are available and
whether the `HeadObjectCommand` for the polled key succeeds. -/
structure PCTickEnv where
  credsAvailable : Bool
  headOk : Bool

/-- One firing of the `checkFileAvailability` interval callback. When the
interval has been cleared the callback no longer fires, so the state is
unchanged. Otherwise the callback increments `pollingAttempts` (clearing
all three intervals at `MAX_POLLING_ATTEMPTS`), then stops with cleared
intervals when the bucket or the credentials are missing, and otherwise
issues the existence check; on success it stores the pre-signed URL, marks
the file ready, jumps to the final step, notifies `onFileReady` and clears
all intervals, while on failure it just logs and waits for the next tick. -/
def checkFileAvailabilityTick (cfg : PCConfig) (env : PCTickEnv) (s : PCState) : PCState :=
  if s.fileIntervalActive = false then s
  else
    let attempts := s.pollingAttempts + 1
    let s1 :=
      if MAX_POLLING_ATTEMPTS ≤ attempts then
        clearAllIntervals { s with pollingAttempts := attempts }
      else { s with pollingAttempts := attempts }
    if selectedBucketOf cfg = "" then clearAllIntervals s1
    else if env.credsAvailable = false then clearAllIntervals s1
    else
      let s2 := { s1 with checksIssued := s1.checksIssued + 1 }
      if env.headOk then
        let url := cfg.presign (selectedBucketOf cfg)
          (objectKeyOf cfg.selectedFormat cfg.updatedFilename)
          (desiredFilenameOf cfg.selectedFormat cfg.originalFileName)
        clearAllIntervals
          { s2 with downloadUrl := url, isFileReady := true,
                    currentStep := processingSteps.length - 1,
                    notified := s2.notified ++ [url] }
      else s2

/-- One re-run of the polling effect, as React performs it after a state
listed in the effect dependency array changes (both `pollingAttempts` and
`isFileReady` are listed): the cleanup clears the three intervals, and the
effect body then resets `pollingAttempts` to 0 and restarts the intervals
whenever `updatedFilename` is truthy and the file is not ready. -/
def effectRerun (cfg : PCConfig) (s : PCState) : PCState :=
  if cfg.updatedFilename = "" ∨ s.isFileReady = true then clearAllIntervals s
  else
    { s with pollingAttempts := 0, fileIntervalActive := true,
             timeIntervalActive := true, stepIntervalActive := true }

/-- One polling cycle of the component under React effect semantics: the
interval callback fires, and when it changed a dependency of the effect
(`pollingAttempts`, which it always increments when it runs, or
`isFileReady`), the effect is torn down and re-run, resetting the attempt
counter and restarting the intervals. The second cascaded re-run triggered
by the reset itself settles in the same state, since the re-run is
idempotent on the affected fields. -/
def pcSessionStep (cfg : PCConfig) (env : PCTickEnv) (s : PCState) : PCState :=
  let s1 := checkFileAvailabilityTick cfg env s
  if s1.pollingAttempts ≠ s.pollingAttempts ∨ s1.isFileReady ≠ s.isFileReady
  then effectRerun cfg s1
  else s1

/-- The component state after `n` polling cycles of a session, starting
from the state in which the mount effect has just started the intervals. -/
def pcSessionTrace (cfg : PCConfig) (env : Nat → PCTickEnv) : Nat → PCState
  | 0 => initialPCState
  | n + 1 => pcSessionStep cfg (env n) (pcSessionTrace cfg env n)

/-- All three intervals have been cleared. -/
def intervalsCleared (s : PCState) : Prop :=
  s.fileIntervalActive = false ∧ s.timeIntervalActive = false ∧
    s.stepIntervalActive = false

instance (s : PCState) : Decidable (intervalsCleared s) := by
  unfold intervalsCleared; infer_instance

/-- The constant `FILENAME_THRESHOLD` in ProcessingContainer's `truncateFilename`. -/
def FILENAME_THRESHOLD : Nat := 30

/-- The helper `truncateFilename` from ProcessingContainer, with the clamping
behaviour of JS `substring` (negative arguments are treated as 0). -/
def truncateFilename (s : String) : String :=
  if FILENAME_THRESHOLD < s.length then
    let ei : Int := jsLastIndexOf s.data '.'
    let ext := s.data.drop ei.toNat
    let truncatedName :=
      s.data.take (((FILENAME_THRESHOLD : Int) - (ext.length : Int)).toNat) ++
        ('.' :: '.' :: '.' :: [])
    ⟨truncatedName ++ ext⟩
  else s

/- ------------------------------------------------------------------
   RemediatedFilesContainer (Header.jsx source): normalizePdfFilename.
   ------------------------------------------------------------------ -/

/-- The characters of the `COMPLIANT_` tag stripped by
`replace(/^COMPLIANT_/, "")`. -/
def compliantTag : List Char := ("COMPLIANT_").data

/-- JS `replace(/^COMPLIANT_/, "")`: drop a leading `COMPLIANT_`. -/
def stripCompliantTag (l : List Char) : List Char :=
  if compliantTag.isPrefixOf l then l.drop compliantTag.length else l

/-- Length of the maximal leading run of `[A-Za-z0-9_]` characters. -/
def wordRunLen (l : List Char) : Nat := (l.takeWhile isWordChar).length

/-- Length of the maximal leading run of decimal digits. -/
def digitRunLen (l : List Char) : Nat := (l.takeWhile Char.isDigit).length

/-- Backtracking search for the greedy `\d{8,}_` part of the
user/timestamp regex: starting from the longest digit run, find the
largest `j` with `8 ≤ j` such that the j-th character (right after j
digits) is an underscore. -/
def digitsSplitGo (t : List Char) : Nat → Option Nat
  | 0 => none
  | j + 1 =>
    if 8 ≤ j + 1 ∧ (t.drop (j + 1)).head? = some '_' then some (j + 1)
    else digitsSplitGo t j

/-- The `\d{8,}_` match attempt at the start of `t`. -/
def digitsSplit (t : List Char) : Option Nat := digitsSplitGo t (digitRunLen t)

/-- Backtracking search for the greedy `[A-Za-z0-9_]+_` part: starting
from the longest word-character run, find the largest `i` such that the
i-th character is an underscore and the rest matches `\d{8,}_`; returns
the total length of the regex match. -/
def wordSplitGo (l : List Char) : Nat → Option Nat
  | 0 => none
  | i + 1 =>
    if (l.drop (i + 1)).head? = some '_' then
      match digitsSplit (l.drop (i + 2)) with
      | some j => some (i + 1 + 1 + j + 1)
      | none => wordSplitGo l i
    else wordSplitGo l i

/-- Length of the match of `/^[A-Za-z0-9_]+_\d{8,}_/` against `l`, using
the greedy backtracking order of JS regex matching, or `none` when the
regex does not match. -/
def userTsMatchLen (l : List Char) : Option Nat :=
  wordSplitGo l (wordRunLen l)

/-- JS `replace(/^[A-Za-z0-9_]+_\d{8,}_/, "")`: remove the user/timestamp
prefix when the regex matches. -/
def stripUserTs (l : List Char) : List Char :=
  match userTsMatchLen l with
  | some k => l.drop k
  | none => l

/-- JS `replace(/_/g, " ")`: every underscore becomes a space. -/
def underscoresToSpaces (l : List Char) : List Char :=
  l.map (fun c => if c = '_' then ' ' else c)

/-- JS `replace(/%20/g, " ")`: left-to-right non-overlapping replacement of
every `%20` occurrence by a single space. -/
def replacePct20 : List Char → List Char
  | c1 :: c2 :: c3 :: rest =>
    if c1 = '%' ∧ c2 = '2' ∧ c3 = '0' then ' ' :: replacePct20 rest
    else c1 :: replacePct20 (c2 :: c3 :: rest)
  | l => l

/-- Whether `%20` occurs (as three consecutive characters) in `l`. -/
def hasPct20 : List Char → Bool
  | c1 :: c2 :: c3 :: rest =>
    decide (c1 = '%' ∧ c2 = '2' ∧ c3 = '0') || hasPct20 (c2 :: c3 :: rest)
  | _ => false

/-- The body of `normalizePdfFilename` for a truthy input. -/
def normalizePipeline (l : List Char) : List Char :=
  jsTrimL (replacePct20 (underscoresToSpaces (stripUserTs (stripCompliantTag l))))

/-- The function `normalizePdfFilename` from RemediatedFilesContainer: falsy (empty)
input is returned unchanged, otherwise the `COMPLIANT_` tag and the
user/timestamp prefix are stripped, underscores and `%20` become spaces,
and the result is trimmed. -/
def normalizePdfFilename (s : String) : String :=
  if s = "" then s else ⟨normalizePipeline s.data⟩

/-- The user/timestamp pattern of the claim: a non-empty run of
alphanumeric-or-underscore characters, an underscore, at least eight
digits, and an underscore, at the start of the string. -/
def userTsPrefixed (l : List Char) : Prop :=
  ∃ w d rest, l = w ++ '_' :: (d ++ '_' :: rest) ∧ w ≠ [] ∧
    (∀ c ∈ w, isWordChar c = true) ∧ 8 ≤ d.length ∧
    (∀ c ∈ d, c.isDigit = true)

/- ------------------------------------------------------------------
   Helper lemmas.
   ------------------------------------------------------------------ -/

lemma jsReplaceFirstL_eq_split (pat rep : List Char) (l : List Char) :
    jsReplaceFirstL pat rep l =
      match splitAtFirstOcc pat l with
      | some (a, b) => a ++ rep ++ b
      | none => l := by
  induction l with
  | nil => simp [jsReplaceFirstL, splitAtFirstOcc]
  | cons c cs ih =>
    by_cases h : pat.isPrefixOf (c :: cs)
    · simp [jsReplaceFirstL, splitAtFirstOcc, h]
    · simp only [jsReplaceFirstL, splitAtFirstOcc, h, if_neg, Bool.false_eq_true,
        ite_false]
      rw [ih]
      cases hs : splitAtFirstOcc pat cs with
      | none => simp
      | some ab =>
        obtain ⟨a, b⟩ := ab
        simp

lemma backendWaitGo_spec (poll : Nat → String) :
    ∀ fuel i,
      (backendWaitGo poll i fuel).sleptSeconds =
        BUILD_POLL_SLEEP_SECONDS * (backendWaitGo poll i fuel).polls ∧
      ((backendWaitGo poll i fuel).status ≠ "IN_PROGRESS" →
        1 ≤ (backendWaitGo poll i fuel).polls ∧
        poll (i + ((backendWaitGo poll i fuel).polls - 1)) =
          (backendWaitGo poll i fuel).status ∧
        ∀ j, j < (backendWaitGo poll i fuel).polls - 1 →
          poll (i + j) = "IN_PROGRESS") := by
  intro fuel
  induction fuel with
  | zero => intro i; simp [backendWaitGo]
  | succ fuel ih =>
    intro i
    by_cases h : poll i = "IN_PROGRESS"
    · obtain ⟨ih1, ih2⟩ := ih (i + 1)
      simp only [backendWaitGo, h, if_pos]
      constructor
      · simp only [ih1, BUILD_POLL_SLEEP_SECONDS]
        omega
      · intro hst
        obtain ⟨hp1, hp2, hp3⟩ := ih2 hst
        refine ⟨by omega, ?_, ?_⟩
        · have he : i + ((backendWaitGo poll (i + 1) fuel).polls + 1 - 1) =
              i + 1 + ((backendWaitGo poll (i + 1) fuel).polls - 1) := by omega
          rw [he]
          exact hp2
        · intro j hj
          rcases Nat.eq_zero_or_pos j with h0 | h0
          · subst h0; simpa using h
          · have he : i + j = i + 1 + (j - 1) := by omega
            rw [he]
            exact hp3 (j - 1) (by omega)
    · simp [backendWaitGo, h]

lemma fetchLoopGo_three (ok : Nat → Bool) :
    fetchLoopGo ok 1 3 =
      if ok 1 then ⟨1, [], true, true, false⟩
      else if ok 2 then ⟨2, [RETRY_DELAY_MS], true, true, false⟩
      else if ok 3 then ⟨3, [RETRY_DELAY_MS, RETRY_DELAY_MS], true, true, false⟩
      else ⟨3, [RETRY_DELAY_MS, RETRY_DELAY_MS], false, false, false⟩ := by
  show fetchLoopGo ok 1 (2 + 1) = _
  rw [fetchLoopGo]
  by_cases h1 : ok 1
  · simp [h1]
  · show (if ok 1 then _ else _) = _
    rw [if_neg h1, if_neg h1]
    show (let r := fetchLoopGo ok 2 (1 + 1); FetchOutcome.mk (r.attempts + 1) _ _ _ _) = _
    rw [fetchLoopGo]
    by_cases h2 : ok 2
    · simp [h2]
    · rw [if_neg h2]
      show (let r := fetchLoopGo ok 3 (0 + 1); _) = _
      rw [fetchLoopGo]
      by_cases h3 : ok 3
      · simp [h2, h3]
      · simp [h2, h3, fetchLoopGo]

/- ------------------------------------------------------------------
   Claim theorems: C3, C5, C6, C7, C9.
   ------------------------------------------------------------------ -/

/-- Claim C3: for every updatedFilename, the polled S3 object key is
`remediated/final_` plus the filename with the first `.pdf` occurrence
replaced by `.zip` and every whitespace character replaced by `_` when the
selected format is `html`, and `result/COMPLIANT_` plus the unchanged
filename for any other format. -/
theorem c3_object_key (fmt name : String) :
    objectKeyOf fmt name = claimObjectKey fmt name := by
  by_cases h : fmt = "html"
  · simp only [objectKeyOf, claimObjectKey, h, if_pos]
    rw [pdfToZipFirst, claimPdfToZip, jsReplaceFirstL_eq_split]
  · simp [objectKeyOf, claimObjectKey, h]

/-- Claim C5: every invocation of the fetchBeforeReport / fetchAfterReport
loop with the default retries makes at most 3 attempts, stops at the first
successful attempt after setting the report state and pre-signed URL,
separates failed attempts by a single 2000 ms delay, and never propagates
an error to the caller. -/
theorem c5_report_fetch_retries (ok : Nat → Bool) (p : Bool) :
    DEFAULT_REPORT_RETRIES = 3 ∧ RETRY_DELAY_MS = 2000 ∧
    (fetchReportRun ok p DEFAULT_REPORT_RETRIES).attempts ≤ 3 ∧
    (fetchReportRun ok p DEFAULT_REPORT_RETRIES).raised = false ∧
    (p = true → ok 1 = true →
      fetchReportRun ok p DEFAULT_REPORT_RETRIES = ⟨1, [], true, true, false⟩) ∧
    (p = true → ok 1 = false → ok 2 = true →
      fetchReportRun ok p DEFAULT_REPORT_RETRIES = ⟨2, [2000], true, true, false⟩) ∧
    (p = true → ok 1 = false → ok 2 = false → ok 3 = true →
      fetchReportRun ok p DEFAULT_REPORT_RETRIES =
        ⟨3, [2000, 2000], true, true, false⟩) ∧
    (p = true → ok 1 = false → ok 2 = false → ok 3 = false →
      fetchReportRun ok p DEFAULT_REPORT_RETRIES =
        ⟨3, [2000, 2000], false, false, false⟩) := by
  have key : fetchReportRun ok p DEFAULT_REPORT_RETRIES =
      if p then fetchLoopGo ok 1 3 else ⟨0, [], false, false, false⟩ := rfl
  rw [key, fetchLoopGo_three ok]
  cases p <;> cases h1 : ok 1 <;> cases h2 : ok 2 <;> cases h3 : ok 3 <;>
    simp [h1, h2, h3, RETRY_DELAY_MS, DEFAULT_REPORT_RETRIES]

/-- Claim C6: the per-user upload limits max_files_allowed,
max_pages_allowed and max_size_allowed_MB are mutable custom number
attributes on the Cognito user pool, alongside the total_files_uploaded
usage counter. -/
theorem c6_quota_attributes :
    (⟨"max_files_allowed", CognitoAttrType.number, true⟩ : CognitoCustomAttr)
        ∈ cdkCustomAttributes ∧
    (⟨"max_pages_allowed", CognitoAttrType.number, true⟩ : CognitoCustomAttr)
        ∈ cdkCustomAttributes ∧
    (⟨"max_size_allowed_MB", CognitoAttrType.number, true⟩ : CognitoCustomAttr)
        ∈ cdkCustomAttributes ∧
    (⟨"total_files_uploaded", CognitoAttrType.number, true⟩ : CognitoCustomAttr)
        ∈ cdkCustomAttributes ∧
    (∀ a ∈ cdkCustomAttributes,
      (a.name = "max_files_allowed" ∨ a.name = "max_pages_allowed" ∨
          a.name = "max_size_allowed_MB" ∨ a.name = "total_files_uploaded") →
        a.attrType = CognitoAttrType.number ∧ a.isMutable = true) := by
  decide

/-- Claim C7: the deploy.sh backend wait re-reads the build status every 15
seconds while it is IN_PROGRESS; the frontend build is created and started
only when the terminal status is SUCCEEDED, and any other terminal status
makes the script exit with status 1. -/
theorem c7_deploy_wait_loop (poll : Nat → String) (fuel : Nat) :
    BUILD_POLL_SLEEP_SECONDS = 15 ∧
    (backendWaitLoop poll fuel).sleptSeconds =
      BUILD_POLL_SLEEP_SECONDS * (backendWaitLoop poll fuel).polls ∧
    ((backendWaitLoop poll fuel).status ≠ "IN_PROGRESS" →
      1 ≤ (backendWaitLoop poll fuel).polls ∧
      poll ((backendWaitLoop poll fuel).polls - 1) =
        (backendWaitLoop poll fuel).status ∧
      ∀ j, j < (backendWaitLoop poll fuel).polls - 1 →
        poll j = "IN_PROGRESS") ∧
    (∀ st : String, st ≠ "SUCCEEDED" →
      deployAfterBackendWait st = DeployNext.exitWithFailure 1) ∧
    deployAfterBackendWait ("SUCCEEDED") = DeployNext.createAndStartFrontend := by
  obtain ⟨h1, h2⟩ := backendWaitGo_spec poll fuel 0
  refine ⟨rfl, h1, ?_, ?_, by simp [deployAfterBackendWait]⟩
  · intro hst
    obtain ⟨hp1, hp2, hp3⟩ := h2 hst
    refine ⟨hp1, by simpa using hp2, fun j hj => by simpa using hp3 j hj⟩
  · intro st hst
    simp [deployAfterBackendWait, hst]

/-- Claim C9: the `At least one bucket name is required!` branch of the
CdkBackendStack constructor is unreachable because both context values
default to the non-empty string `Null`, so absent bucket names are silently
treated as a bucket literally named `Null`. -/
theorem c9_validation_unreachable :
    (∀ a b : Option String, ∃ p, cdkBucketValidation a b = Except.ok p) ∧
    cdkBucketValidation none none = Except.ok ("Null", "Null") := by
  constructor
  · intro a b
    refine ⟨(jsOrNullDefault a, jsOrNullDefault b), ?_⟩
    have hA : jsOrNullDefault a ≠ "" := by
      cases a with
      | none => decide
      | some s =>
        simp only [jsOrNullDefault]
        split
        · decide
        · assumption
    simp only [cdkBucketValidation]
    rw [if_neg (fun h => hA h.1)]
  · rfl

/-- Claim C2: on any polling tick where the bucket and credentials are
present and the HeadObjectCommand succeeds, the component stores the
pre-signed URL, marks the file ready, jumps to the final step, passes the
URL to onFileReady, and clears all three intervals. -/
theorem c2_success_path (cfg : PCConfig) (env : PCTickEnv) (s : PCState)
    (hact : s.fileIntervalActive = true)
    (hbucket : selectedBucketOf cfg ≠ "")
    (hcreds : env.credsAvailable = true)
    (hhead : env.headOk = true) :
    (checkFileAvailabilityTick cfg env s).downloadUrl =
      cfg.presign (selectedBucketOf cfg)
        (objectKeyOf cfg.selectedFormat cfg.updatedFilename)
        (desiredFilenameOf cfg.selectedFormat cfg.originalFileName) ∧
    (checkFileAvailabilityTick cfg env s).isFileReady = true ∧
    (checkFileAvailabilityTick cfg env s).currentStep = processingSteps.length - 1 ∧
    (checkFileAvailabilityTick cfg env s).notified =
      s.notified ++ [cfg.presign (selectedBucketOf cfg)
        (objectKeyOf cfg.selectedFormat cfg.updatedFilename)
        (desiredFilenameOf cfg.selectedFormat cfg.originalFileName)] ∧
    intervalsCleared (checkFileAvailabilityTick cfg env s) := by
  have hact' : ¬(s.fileIntervalActive = false) := by rw [hact]; decide
  simp only [checkFileAvailabilityTick, hact']
  split_ifs with hmax hb hc hb2 hc2 <;>
    simp_all [clearAllIntervals, intervalsCleared]

lemma jsLastIndexOfAux_none (c : Char) :
    ∀ l, jsLastIndexOfAux c l = none → c ∉ l := by
  intro l
  induction l with
  | nil => intro _ h; exact absurd h (List.not_mem_nil c)
  | cons x xs ih =>
    intro h
    simp only [jsLastIndexOfAux] at h
    cases haux : jsLastIndexOfAux c xs with
    | some i => rw [haux] at h; exact absurd h (by simp)
    | none =>
      rw [haux] at h
      by_cases hx : x = c
      · rw [if_pos hx] at h; exact absurd h (by simp)
      · intro hmem
        rcases List.mem_cons.mp hmem with h1 | h1
        · exact hx h1.symm
        · exact ih haux h1

lemma jsLastIndexOfAux_some (c : Char) :
    ∀ l i, jsLastIndexOfAux c l = some i →
      ∃ pre post, l = pre ++ c :: post ∧ pre.length = i ∧ c ∉ post := by
  intro l
  induction l with
  | nil => intro i h; exact absurd h (by simp [jsLastIndexOfAux])
  | cons x xs ih =>
    intro i h
    simp only [jsLastIndexOfAux] at h
    cases haux : jsLastIndexOfAux c xs with
    | some j =>
      rw [haux] at h
      have hi : j + 1 = i := by injection h
      obtain ⟨pre, post, hsplit, hlenpre, hnot⟩ := ih j haux
      refine ⟨x :: pre, post, by rw [hsplit]; rfl, ?_, hnot⟩
      simp only [List.length_cons, hlenpre]
      omega
    | none =>
      rw [haux] at h
      by_cases hx : x = c
      · rw [if_pos hx] at h
        have hi : (0 : Nat) = i := by injection h
        refine ⟨[], xs, by simp [hx], ?_, jsLastIndexOfAux_none c xs haux⟩
        simp only [List.length_nil]
        omega
      · rw [if_neg hx] at h
        exact absurd h (by simp)

lemma jsLastIndexOfAux_isSome_of_mem (c : Char) (l : List Char) (h : c ∈ l) :
    (jsLastIndexOfAux c l).isSome = true := by
  cases haux : jsLastIndexOfAux c l with
  | some i => rfl
  | none => exact absurd h (jsLastIndexOfAux_none c l haux)

/-- Claim C10: truncateFilename returns filenames of length at most 30
unchanged; for a longer filename containing a dot it returns the first
(30 minus extension length) characters, then an ellipsis, then the
substring from the last dot, so the result ends with the original extension
and, when the extension has at most 30 characters, has length 33. -/
theorem c10_truncate_filename (s : String) :
    (s.length ≤ FILENAME_THRESHOLD → truncateFilename s = s) ∧
    (FILENAME_THRESHOLD < s.length → '.' ∈ s.data →
      ∃ pre ext, s.data = pre ++ ext ∧ ext.head? = some '.' ∧ '.' ∉ ext.tail ∧
        (truncateFilename s).data =
          s.data.take (FILENAME_THRESHOLD - ext.length) ++
            ('.' :: '.' :: '.' :: ext) ∧
        (ext.length ≤ FILENAME_THRESHOLD → (truncateFilename s).length = 33)) := by
  constructor
  · intro hle
    unfold truncateFilename
    rw [if_neg (by omega)]
  · intro hlen hdot
    have hsome := jsLastIndexOfAux_isSome_of_mem '.' s.data hdot
    obtain ⟨i, haux⟩ := Option.isSome_iff_exists.mp hsome
    obtain ⟨pre, post, hsplit, hlenpre, hnot⟩ :=
      jsLastIndexOfAux_some '.' s.data i haux
    have hjs : jsLastIndexOf s.data '.' = (i : Int) := by
      simp [jsLastIndexOf, haux]
    have hiN : ((i : Int)).toNat = i := by omega
    have hdrop : s.data.drop i = '.' :: post := by
      rw [hsplit, ← hlenpre, List.drop_left]
    have harg : (((FILENAME_THRESHOLD : Nat) : Int) - ((('.' :: post).length : Nat) : Int)).toNat
        = FILENAME_THRESHOLD - ('.' :: post).length := by omega
    have hkey : (truncateFilename s).data =
        s.data.take (FILENAME_THRESHOLD - ('.' :: post).length) ++
          ('.' :: '.' :: '.' :: ('.' :: post)) := by
      unfold truncateFilename
      rw [if_pos hlen]
      simp only [hjs, hiN, hdrop, harg]
      simp [List.append_assoc]
    refine ⟨pre, '.' :: post, hsplit, rfl, hnot, hkey, ?_⟩
    intro hext
    have htl : (truncateFilename s).length = (truncateFilename s).data.length := rfl
    have hsl : s.length = s.data.length := rfl
    have hdl : s.data.length = pre.length + (post.length + 1) := by
      rw [hsplit]; simp
    have hF : FILENAME_THRESHOLD = 30 := rfl
    rw [hsl] at hlen
    rw [htl, hkey]
    simp only [List.length_append, List.length_take, List.length_cons, hF] at *
    omega

/-- A concrete pdf-format ProcessingContainer configuration. -/
def pcDemoConfig : PCConfig :=
  ⟨"pdf", "report.pdf", "report.pdf", "pdf-bucket", "html-bucket",
    fun b k f => b ++ "/" ++ k ++ "/" ++ f⟩

/-- A concrete html-format ProcessingContainer configuration. -/
def pcDemoConfigHtml : PCConfig :=
  ⟨"html", "my file.pdf", "my file.pdf", "pdf-bucket", "html-bucket",
    fun b k f => b ++ "/" ++ k ++ "/" ++ f⟩

/-- A build-status sequence: IN_PROGRESS once, then SUCCEEDED. -/
def pollOnceThenSucceed : Nat → String :=
  fun i => if i = 0 then "IN_PROGRESS" else "SUCCEEDED"

/-- A fetch oracle whose second attempt succeeds. -/
def okSecondAttempt : Nat → Bool := fun t => decide (t = 2)

/-- A 31-character filename with a `.pdf` extension. -/
def tfDemoName : String := "aaaaaaaaaaaaaaaaaaaaaaaaaaa.pdf"

/-- Witness for C2 at a concrete configuration and environment. -/
theorem c2_success_path_witness :
    (initialPCState.fileIntervalActive = true ∧
      selectedBucketOf pcDemoConfigHtml ≠ "") ∧
    ((checkFileAvailabilityTick pcDemoConfigHtml ⟨true, true⟩
        initialPCState).downloadUrl =
      pcDemoConfigHtml.presign (selectedBucketOf pcDemoConfigHtml)
        (objectKeyOf pcDemoConfigHtml.selectedFormat
          pcDemoConfigHtml.updatedFilename)
        (desiredFilenameOf pcDemoConfigHtml.selectedFormat
          pcDemoConfigHtml.originalFileName) ∧
     (checkFileAvailabilityTick pcDemoConfigHtml ⟨true, true⟩
        initialPCState).isFileReady = true ∧
     intervalsCleared (checkFileAvailabilityTick pcDemoConfigHtml ⟨true, true⟩
        initialPCState)) :=
  ⟨⟨rfl, by decide⟩,
   (c2_success_path pcDemoConfigHtml ⟨true, true⟩ initialPCState rfl
      (by decide) rfl rfl).1,
   (c2_success_path pcDemoConfigHtml ⟨true, true⟩ initialPCState rfl
      (by decide) rfl rfl).2.1,
   (c2_success_path pcDemoConfigHtml ⟨true, true⟩ initialPCState rfl
      (by decide) rfl rfl).2.2.2.2⟩

/-- Witness for C5 at a concrete oracle: second attempt succeeds. -/
theorem c5_report_fetch_retries_witness :
    (okSecondAttempt 1 = false ∧ okSecondAttempt 2 = true) ∧
    fetchReportRun okSecondAttempt true DEFAULT_REPORT_RETRIES =
      ⟨2, [2000], true, true, false⟩ :=
  ⟨⟨rfl, rfl⟩,
   (c5_report_fetch_retries okSecondAttempt true).2.2.2.2.2.1 rfl rfl rfl⟩

/-- Witness for C7 at a concrete status sequence. -/
theorem c7_deploy_wait_loop_witness :
    ((backendWaitLoop pollOnceThenSucceed 3).status ≠ "IN_PROGRESS" ∧
      ("FAILED" : String) ≠ "SUCCEEDED") ∧
    (1 ≤ (backendWaitLoop pollOnceThenSucceed 3).polls ∧
     pollOnceThenSucceed ((backendWaitLoop pollOnceThenSucceed 3).polls - 1) =
       (backendWaitLoop pollOnceThenSucceed 3).status ∧
     ∀ j, j < (backendWaitLoop pollOnceThenSucceed 3).polls - 1 →
       pollOnceThenSucceed j = "IN_PROGRESS") ∧
    deployAfterBackendWait ("FAILED") = DeployNext.exitWithFailure 1 :=
  ⟨⟨by decide, by decide⟩,
   (c7_deploy_wait_loop pollOnceThenSucceed 3).2.2.1 (by decide),
   (c7_deploy_wait_loop pollOnceThenSucceed 3).2.2.2.1 ("FAILED") (by decide)⟩

/-- Witness for C10 at a concrete 31-character filename. -/
theorem c10_truncate_filename_witness :
    (FILENAME_THRESHOLD < tfDemoName.length ∧ '.' ∈ tfDemoName.data) ∧
    (∃ pre ext, tfDemoName.data = pre ++ ext ∧ ext.head? = some '.' ∧
      '.' ∉ ext.tail ∧
      (truncateFilename tfDemoName).data =
        tfDemoName.data.take (FILENAME_THRESHOLD - ext.length) ++
          ('.' :: '.' :: '.' :: ext) ∧
      (ext.length ≤ FILENAME_THRESHOLD →
        (truncateFilename tfDemoName).length = 33)) :=
  ⟨⟨by decide, by decide⟩,
   (c10_truncate_filename tfDemoName).2 (by decide) (by decide)⟩

/- ------------------------------------------------------------------
   Lemmas for the normalizePdfFilename pipeline (C4, C8).
   ------------------------------------------------------------------ -/

lemma eq_cons_of_head_some {α : Type} (x : List α) (a : α)
    (h : x.head? = some a) : x = a :: x.tail := by
  cases x with
  | nil => simp at h
  | cons y ys => simp at h; simp [h]

lemma mem_take_of_le_takeWhile (p : Char → Bool) :
    ∀ (t : List Char) (m : Nat), m ≤ (t.takeWhile p).length →
      ∀ c ∈ t.take m, p c = true := by
  intro t
  induction t with
  | nil => intro m _ c hc; simp at hc
  | cons x xs ih =>
    intro m hm c hc
    by_cases hx : p x = true
    · rw [List.takeWhile_cons, if_pos hx] at hm
      cases m with
      | zero => simp at hc
      | succ m =>
        simp only [List.take_succ_cons, List.mem_cons] at hc
        rcases hc with hc | hc
        · rw [hc]; exact hx
        · exact ih m (by simpa using hm) c hc
    · rw [List.takeWhile_cons, if_neg hx] at hm
      simp at hm
      rw [hm] at hc
      simp at hc

lemma length_le_takeWhile_of_all (p : Char → Bool) :
    ∀ (d rest : List Char), (∀ c ∈ d, p c = true) →
      d.length ≤ ((d ++ rest).takeWhile p).length := by
  intro d
  induction d with
  | nil => intro rest _; simp
  | cons x xs ih =>
    intro rest hall
    have hx : p x = true := hall x (List.mem_cons_self x xs)
    rw [List.cons_append, List.takeWhile_cons, if_pos hx]
    simp only [List.length_cons, Nat.succ_le_succ_iff]
    exact ih rest (fun c hc => hall c (List.mem_cons_of_mem x hc))

lemma digitsSplitGo_sound (t : List Char) :
    ∀ n j, n ≤ digitRunLen t → digitsSplitGo t n = some j →
      8 ≤ j ∧ j ≤ digitRunLen t ∧ (t.drop j).head? = some '_' := by
  intro n
  induction n with
  | zero => intro j _ h; exact absurd h (by simp [digitsSplitGo])
  | succ m ih =>
    intro j hle h
    rw [digitsSplitGo] at h
    split_ifs at h with hc
    · have hj : m + 1 = j := by injection h
      rw [← hj]
      exact ⟨hc.1, hle, hc.2⟩
    · exact ih j (by omega) h

lemma digitsSplitGo_isSome (t d rest : List Char) (ht : t = d ++ '_' :: rest)
    (hd : ∀ c ∈ d, c.isDigit = true) (h8 : 8 ≤ d.length) :
    ∀ n, d.length ≤ n → (digitsSplitGo t n).isSome = true := by
  intro n
  induction n with
  | zero => intro hn; omega
  | succ m ih =>
    intro hn
    rw [digitsSplitGo]
    split_ifs with hc
    · rfl
    · refine ih ?_
      by_cases heq : d.length = m + 1
      · exfalso
        apply hc
        constructor
        · omega
        · rw [← heq, ht, List.drop_left]
          rfl
      · omega

lemma digitsSplit_sound (t : List Char) (j : Nat) (h : digitsSplit t = some j) :
    8 ≤ j ∧ j ≤ digitRunLen t ∧ (t.drop j).head? = some '_' :=
  digitsSplitGo_sound t (digitRunLen t) j (Nat.le_refl _) h

lemma digitsSplit_isSome (t d rest : List Char) (ht : t = d ++ '_' :: rest)
    (hd : ∀ c ∈ d, c.isDigit = true) (h8 : 8 ≤ d.length) :
    (digitsSplit t).isSome = true := by
  refine digitsSplitGo_isSome t d rest ht hd h8 (digitRunLen t) ?_
  have := length_le_takeWhile_of_all Char.isDigit d ('_' :: rest) hd
  rw [← ht] at this
  exact this

lemma wordSplitGo_sound (l : List Char) :
    ∀ n k, n ≤ wordRunLen l → wordSplitGo l n = some k →
      ∃ w d, l = w ++ '_' :: (d ++ '_' :: l.drop k) ∧ w ≠ [] ∧
        (∀ c ∈ w, isWordChar c = true) ∧ 8 ≤ d.length ∧
        (∀ c ∈ d, c.isDigit = true) := by
  intro n
  induction n with
  | zero => intro k _ h; exact absurd h (by simp [wordSplitGo])
  | succ i ih =>
    intro k hle h
    rw [wordSplitGo] at h
    by_cases hhead : (l.drop (i + 1)).head? = some '_'
    · rw [if_pos hhead] at h
      cases hds : digitsSplit (l.drop (i + 2)) with
      | none => rw [hds] at h; exact ih k (by omega) h
      | some j =>
        rw [hds] at h
        have hk : i + 1 + 1 + j + 1 = k := by injection h
        obtain ⟨h8, hjle, hjhead⟩ := digitsSplit_sound _ j hds
        have htlen : digitRunLen (l.drop (i + 2)) ≤ (l.drop (i + 2)).length :=
          (List.takeWhile_sublist _).length_le
        have hdt : l.drop (i + 2) =
            (l.drop (i + 2)).take j ++ '_' :: (l.drop (i + 2)).drop (j + 1) := by
          have h2 : (l.drop (i + 2)).drop j =
              '_' :: ((l.drop (i + 2)).drop j).tail := eq_cons_of_head_some _ _ hjhead
          rw [List.tail_drop] at h2
          conv_lhs => rw [← List.take_append_drop j (l.drop (i + 2))]
          rw [h2]
        have hdigits : ∀ c ∈ (l.drop (i + 2)).take j, c.isDigit = true :=
          mem_take_of_le_takeWhile Char.isDigit (l.drop (i + 2)) j hjle
        have hdlen : ((l.drop (i + 2)).take j).length = j := by
          rw [List.length_take]; omega
        have hlendrop : i + 1 < l.length := by
          by_contra hcon
          have hnil : l.drop (i + 1) = [] := by
            rw [List.drop_eq_nil_iff]; omega
          rw [hnil] at hhead; simp at hhead
        have hw : l = l.take (i + 1) ++ '_' :: l.drop (i + 2) := by
          have h2 : l.drop (i + 1) = '_' :: (l.drop (i + 1)).tail :=
            eq_cons_of_head_some _ _ hhead
          rw [List.tail_drop] at h2
          conv_lhs => rw [← List.take_append_drop (i + 1) l]
          rw [h2]
        have hwword : ∀ c ∈ l.take (i + 1), isWordChar c = true :=
          mem_take_of_le_takeWhile isWordChar l (i + 1) hle
        have hwlen : (l.take (i + 1)).length = i + 1 := by
          rw [List.length_take]; omega
        have hwne : l.take (i + 1) ≠ [] := by
          intro hempty
          rw [hempty] at hwlen
          simp at hwlen
        have hdk : l.drop k = (l.drop (i + 2)).drop (j + 1) := by
          rw [List.drop_drop, ← hk]
          rfl
        refine ⟨l.take (i + 1), (l.drop (i + 2)).take j, ?_, hwne, hwword,
          by omega, hdigits⟩
        rw [hdk, ← hdt]
        exact hw
    · rw [if_neg hhead] at h
      exact ih k (by omega) h

lemma wordSplitGo_isSome (l w d rest : List Char)
    (hl : l = w ++ '_' :: (d ++ '_' :: rest)) (hw : w ≠ [])
    (hwc : ∀ c ∈ w, isWordChar c = true) (h8 : 8 ≤ d.length)
    (hd : ∀ c ∈ d, c.isDigit = true) :
    ∀ n, w.length ≤ n → (wordSplitGo l n).isSome = true := by
  have hwpos : 1 ≤ w.length := by
    cases w with
    | nil => exact absurd rfl hw
    | cons a as => simp
  have hdropw : l.drop w.length = '_' :: (d ++ '_' :: rest) := by
    rw [hl, List.drop_left]
  have hdropw1 : l.drop (w.length + 1) = d ++ '_' :: rest := by
    have hsh : l = (w ++ ['_']) ++ (d ++ '_' :: rest) := by
      rw [hl]; simp
    rw [hsh]
    have hlen : w.length + 1 = (w ++ ['_']).length := by simp
    rw [hlen, List.drop_left]
  intro n
  induction n with
  | zero => intro hn; omega
  | succ i ih =>
    intro hn
    rw [wordSplitGo]
    by_cases hhead : (l.drop (i + 1)).head? = some '_'
    · rw [if_pos hhead]
      cases hds : digitsSplit (l.drop (i + 2)) with
      | some j => rfl
      | none =>
        by_cases heq : w.length = i + 1
        · exfalso
          rw [heq] at hdropw1
          have hsome := digitsSplit_isSome (l.drop (i + 2)) d rest
            (by rw [← hdropw1]) hd h8
          rw [hds] at hsome
          simp at hsome
        · exact ih (by omega)
    · rw [if_neg hhead]
      by_cases heq : w.length = i + 1
      · exfalso
        apply hhead
        rw [← heq, hdropw]
        rfl
      · exact ih (by omega)

lemma userTsMatchLen_some_decomp (l : List Char) (k : Nat)
    (h : userTsMatchLen l = some k) :
    ∃ w d, l = w ++ '_' :: (d ++ '_' :: l.drop k) ∧ w ≠ [] ∧
      (∀ c ∈ w, isWordChar c = true) ∧ 8 ≤ d.length ∧
      (∀ c ∈ d, c.isDigit = true) :=
  wordSplitGo_sound l (wordRunLen l) k (Nat.le_refl _) h

lemma userTsMatchLen_isSome_iff (l : List Char) :
    (userTsMatchLen l).isSome = true ↔ userTsPrefixed l := by
  constructor
  · intro h
    obtain ⟨k, hk⟩ := Option.isSome_iff_exists.mp h
    obtain ⟨w, d, hdec, hw, hwc, h8, hd⟩ := userTsMatchLen_some_decomp l k hk
    exact ⟨w, d, l.drop k, hdec, hw, hwc, h8, hd⟩
  · rintro ⟨w, d, rest, hdec, hw, hwc, h8, hd⟩
    have hwrun : w.length ≤ wordRunLen l := by
      have hta := length_le_takeWhile_of_all isWordChar w ('_' :: (d ++ '_' :: rest)) hwc
      rw [← hdec] at hta
      exact hta
    exact wordSplitGo_isSome l w d rest hdec hw hwc h8 hd (wordRunLen l) hwrun

lemma replacePct20_nil : replacePct20 [] = [] := rfl

lemma replacePct20_one (c : Char) : replacePct20 [c] = [c] := rfl

lemma replacePct20_two (c d : Char) : replacePct20 [c, d] = [c, d] := rfl

lemma replacePct20_three (c1 c2 c3 : Char) (r : List Char) :
    replacePct20 (c1 :: c2 :: c3 :: r) =
      if c1 = '%' ∧ c2 = '2' ∧ c3 = '0' then ' ' :: replacePct20 r
      else c1 :: replacePct20 (c2 :: c3 :: r) := rfl

lemma hasPct20_nil : hasPct20 [] = false := rfl

lemma hasPct20_one (c : Char) : hasPct20 [c] = false := rfl

lemma hasPct20_two (c d : Char) : hasPct20 [c, d] = false := rfl

lemma hasPct20_three (c1 c2 c3 : Char) (r : List Char) :
    hasPct20 (c1 :: c2 :: c3 :: r) =
      (decide (c1 = '%' ∧ c2 = '2' ∧ c3 = '0') || hasPct20 (c2 :: c3 :: r)) := rfl

lemma hasPct20_cons_of_ne (c : Char) (t : List Char) (h : c ≠ '%') :
    hasPct20 (c :: t) = hasPct20 t := by
  rcases t with _ | ⟨t1, _ | ⟨t2, tr⟩⟩
  · rfl
  · rfl
  · rw [hasPct20_three]
    simp [h]

lemma head_eq_of_replacePct20 (w : List Char) (a : Char)
    (h : (replacePct20 w).head? = some a) (ha : a ≠ ' ') :
    ∃ ws, w = a :: ws ∧ replacePct20 w = a :: replacePct20 ws := by
  rcases w with _ | ⟨c1, _ | ⟨c2, _ | ⟨c3, r⟩⟩⟩
  · simp [replacePct20_nil] at h
  · rw [replacePct20_one] at h
    simp at h
    exact ⟨[], by rw [h], by rw [h]; rfl⟩
  · rw [replacePct20_two] at h
    simp at h
    exact ⟨[c2], by rw [h], by rw [h]; rfl⟩
  · rw [replacePct20_three] at h
    split_ifs at h with hc
    · simp at h
      exact absurd h.symm ha
    · simp at h
      refine ⟨c2 :: c3 :: r, by rw [h], ?_⟩
      rw [replacePct20_three, if_neg hc, h]

lemma hasPct20_cons_true_elim (c : Char) (t : List Char)
    (h : hasPct20 (c :: t) = true) :
    (c = '%' ∧ ∃ u, t = '2' :: '0' :: u) ∨ hasPct20 t = true := by
  rcases t with _ | ⟨t1, _ | ⟨t2, tr⟩⟩
  · exact absurd h (by rw [hasPct20_one]; decide)
  · exact absurd h (by rw [hasPct20_two]; decide)
  · rw [hasPct20_three] at h
    rcases Bool.or_eq_true_iff.mp h with h1 | h1
    · have h2 := of_decide_eq_true h1
      exact Or.inl ⟨h2.1, tr, by rw [h2.2.1, h2.2.2]⟩
    · exact Or.inr h1

lemma hasPct20_cons_intro (c : Char) (t : List Char)
    (h : hasPct20 t = true) : hasPct20 (c :: t) = true := by
  rcases t with _ | ⟨t1, _ | ⟨t2, tr⟩⟩
  · exact absurd h (by rw [hasPct20_nil]; decide)
  · exact absurd h (by rw [hasPct20_one]; decide)
  · rw [hasPct20_three, h]
    simp

lemma replacePct20_noPct :
    ∀ n (l : List Char), l.length ≤ n → hasPct20 (replacePct20 l) = false := by
  intro n
  induction n with
  | zero =>
    intro l h
    have hnil : l = [] := by
      cases l with
      | nil => rfl
      | cons x xs => simp at h
    rw [hnil]
    rfl
  | succ n ih =>
    intro l hlen
    rcases l with _ | ⟨c1, _ | ⟨c2, _ | ⟨c3, r⟩⟩⟩
    · rfl
    · rfl
    · rfl
    · rw [replacePct20_three]
      split_ifs with hc
      · rw [hasPct20_cons_of_ne ' ' _ (by decide)]
        refine ih r ?_
        simp at hlen
        omega
      · have hR : hasPct20 (replacePct20 (c2 :: c3 :: r)) = false := by
          refine ih (c2 :: c3 :: r) ?_
          simp at hlen ⊢
          omega
        by_contra hcon
        rw [Bool.not_eq_false] at hcon
        rcases hasPct20_cons_true_elim _ _ hcon with ⟨hc1, u, hu⟩ | hmem
        · have h2 : (replacePct20 (c2 :: c3 :: r)).head? = some '2' := by
            rw [hu]; rfl
          obtain ⟨ys, hys, hRe⟩ := head_eq_of_replacePct20 _ _ h2 (by decide)
          have hc2 : c2 = '2' := by injection hys
          have hys2 : ys = c3 :: r := by
            have := hys
            injection this with _h1 h2i
            rw [h2i]
          rw [hys2] at hRe
          rw [hRe] at hu
          have htl : replacePct20 (c3 :: r) = '0' :: u := by injection hu
          have h0 : (replacePct20 (c3 :: r)).head? = some '0' := by rw [htl]; rfl
          obtain ⟨zs, hzs, _⟩ := head_eq_of_replacePct20 _ _ h0 (by decide)
          have hc3 : c3 = '0' := by injection hzs
          exact hc ⟨hc1, hc2, hc3⟩
        · rw [hR] at hmem
          exact Bool.false_ne_true hmem

lemma hasPct20_true_exists :
    ∀ l : List Char, hasPct20 l = true →
      ∃ a b, l = a ++ '%' :: '2' :: '0' :: b := by
  intro l
  induction l with
  | nil => intro h; exact absurd h (by rw [hasPct20_nil]; decide)
  | cons c t ih =>
    intro h
    rcases hasPct20_cons_true_elim c t h with ⟨hc, u, hu⟩ | h2
    · exact ⟨[], u, by rw [hc, hu]; rfl⟩
    · obtain ⟨a, b, hab⟩ := ih h2
      exact ⟨c :: a, b, by rw [hab]; rfl⟩

lemma hasPct20_of_decomp :
    ∀ (a l b : List Char), l = a ++ '%' :: '2' :: '0' :: b →
      hasPct20 l = true := by
  intro a
  induction a with
  | nil =>
    intro l b h
    rw [h]
    rw [show (([] : List Char) ++ '%' :: '2' :: '0' :: b) = '%' :: '2' :: '0' :: b from rfl]
    rw [hasPct20_three]
    simp
  | cons c a' ih =>
    intro l b h
    rw [h]
    have ht : hasPct20 (a' ++ '%' :: '2' :: '0' :: b) = true := ih _ b rfl
    exact hasPct20_cons_intro c _ ht

lemma replacePct20_eq_self :
    ∀ l : List Char, hasPct20 l = false → replacePct20 l = l := by
  intro l
  induction l with
  | nil => intro _; rfl
  | cons c t ih =>
    intro h
    rcases t with _ | ⟨t1, _ | ⟨t2, tr⟩⟩
    · rfl
    · rfl
    · rw [hasPct20_three] at h
      simp only [Bool.or_eq_false_iff] at h
      rw [replacePct20_three, if_neg (by simpa using h.1)]
      rw [ih h.2]

lemma mem_replacePct20 :
    ∀ n (l : List Char) (a : Char), l.length ≤ n →
      a ∈ replacePct20 l → a ∈ l ∨ a = ' ' := by
  intro n
  induction n with
  | zero =>
    intro l a hl ha
    have hnil : l = [] := by
      cases l with
      | nil => rfl
      | cons x xs => simp at hl
    rw [hnil] at ha
    simp [replacePct20_nil] at ha
  | succ n ih =>
    intro l a hl ha
    rcases l with _ | ⟨c1, _ | ⟨c2, _ | ⟨c3, r⟩⟩⟩
    · simp [replacePct20_nil] at ha
    · rw [replacePct20_one] at ha
      exact Or.inl ha
    · rw [replacePct20_two] at ha
      exact Or.inl ha
    · rw [replacePct20_three] at ha
      split_ifs at ha with hc
      · rcases List.mem_cons.mp ha with h | h
        · exact Or.inr h
        · rcases ih r a (by simp at hl ⊢; omega) h with h2 | h2
          · exact Or.inl (by simp [h2])
          · exact Or.inr h2
      · rcases List.mem_cons.mp ha with h | h
        · exact Or.inl (by simp [h])
        · rcases ih (c2 :: c3 :: r) a (by simp at hl ⊢; omega) h with h2 | h2
          · refine Or.inl ?_
            simp at h2 ⊢
            tauto
          · exact Or.inr h2

lemma dropWhile_head_or (p : Char → Bool) :
    ∀ l : List Char, l.dropWhile p = [] ∨
      ∃ c cs, l.dropWhile p = c :: cs ∧ p c = false := by
  intro l
  induction l with
  | nil => exact Or.inl rfl
  | cons c cs ih =>
    by_cases hc : p c = true
    · rw [List.dropWhile_cons, if_pos hc]
      exact ih
    · right
      exact ⟨c, cs, by rw [List.dropWhile_cons, if_neg hc], by simpa using hc⟩

lemma dropWhile_dropWhile (p : Char → Bool) (l : List Char) :
    (l.dropWhile p).dropWhile p = l.dropWhile p := by
  rcases dropWhile_head_or p l with h | ⟨c, cs, h, hc⟩
  · rw [h]
    rfl
  · rw [h, List.dropWhile_cons, if_neg (by simp [hc])]

lemma jsTrimL_decomp (l : List Char) : ∃ a b, l = a ++ jsTrimL l ++ b := by
  refine ⟨l.takeWhile jsWs, ((l.dropWhile jsWs).reverse.takeWhile jsWs).reverse, ?_⟩
  unfold jsTrimL
  conv_lhs => rw [← List.takeWhile_append_dropWhile jsWs l]
  rw [List.append_assoc]
  congr 1
  have hx := List.takeWhile_append_dropWhile jsWs (l.dropWhile jsWs).reverse
  have hrev := congrArg List.reverse hx
  rw [List.reverse_append, List.reverse_reverse] at hrev
  exact hrev.symm

lemma jsTrimL_idem (l : List Char) : jsTrimL (jsTrimL l) = jsTrimL l := by
  have hA : (jsTrimL l).dropWhile jsWs = jsTrimL l := by
    unfold jsTrimL
    rcases dropWhile_head_or jsWs l with h | ⟨c, cs, h, hc⟩
    · rw [h]
      rfl
    · rw [h]
      rw [show (c :: cs).reverse = cs.reverse ++ [c] from by simp]
      rw [List.dropWhile_append]
      split_ifs with he
      · have h1 : List.dropWhile jsWs [c] = [c] := by
          rw [List.dropWhile_cons, if_neg (by simp [hc])]
        rw [h1]
        rw [show ([c] : List Char).reverse = [c] from rfl]
        exact h1
      · rw [List.reverse_append]
        rw [show ([c] : List Char).reverse = [c] from rfl]
        rw [show ([c] : List Char) ++ (List.dropWhile jsWs cs.reverse).reverse =
          c :: (List.dropWhile jsWs cs.reverse).reverse from rfl]
        rw [List.dropWhile_cons, if_neg (by simp [hc])]
  have hXr : (jsTrimL l).reverse = (l.dropWhile jsWs).reverse.dropWhile jsWs := by
    unfold jsTrimL
    rw [List.reverse_reverse]
  calc jsTrimL (jsTrimL l)
      = (((jsTrimL l).dropWhile jsWs).reverse.dropWhile jsWs).reverse := rfl
    _ = ((jsTrimL l).reverse.dropWhile jsWs).reverse := by rw [hA]
    _ = (((l.dropWhile jsWs).reverse.dropWhile jsWs).dropWhile jsWs).reverse := by
        rw [hXr]
    _ = ((l.dropWhile jsWs).reverse.dropWhile jsWs).reverse := by
        rw [dropWhile_dropWhile]
    _ = jsTrimL l := rfl

lemma isPrefixOf_exists :
    ∀ (u v : List Char), u.isPrefixOf v = true → ∃ w, v = u ++ w := by
  intro u
  induction u with
  | nil => intro v _; exact ⟨v, rfl⟩
  | cons a as ih =>
    intro v h
    cases v with
    | nil => simp [List.isPrefixOf] at h
    | cons b bs =>
      simp only [List.isPrefixOf, Bool.and_eq_true, beq_iff_eq] at h
      obtain ⟨w, hw⟩ := ih bs h.2
      refine ⟨w, ?_⟩
      rw [← h.1, hw]
      rfl

lemma underscore_not_mem_spaces (l : List Char) :
    '_' ∉ underscoresToSpaces l := by
  intro h
  obtain ⟨a, ha, heq⟩ := List.mem_map.mp h
  by_cases h2 : a = '_'
  · rw [if_pos h2] at heq
    exact absurd heq (by decide)
  · rw [if_neg h2] at heq
    exact h2 heq

lemma underscoresToSpaces_eq_self :
    ∀ l : List Char, '_' ∉ l → underscoresToSpaces l = l := by
  intro l
  induction l with
  | nil => intro _; rfl
  | cons c cs ih =>
    intro h
    have hc : ¬(c = '_') := fun he => h (by rw [he]; exact List.mem_cons_self _ _)
    show (if c = '_' then ' ' else c) :: underscoresToSpaces cs = c :: cs
    rw [if_neg hc, ih (fun hm => h (List.mem_cons_of_mem c hm))]

lemma stripCompliantTag_eq_self (l : List Char) (h : '_' ∉ l) :
    stripCompliantTag l = l := by
  have hnp : ¬(compliantTag.isPrefixOf l = true) := by
    intro hp
    obtain ⟨w, hw⟩ := isPrefixOf_exists compliantTag l hp
    refine h ?_
    rw [hw]
    exact List.mem_append_left w (by decide)
  unfold stripCompliantTag
  rw [if_neg hnp]

lemma stripUserTs_eq_self (l : List Char) (h : '_' ∉ l) :
    stripUserTs l = l := by
  unfold stripUserTs
  cases hu : userTsMatchLen l with
  | none => rfl
  | some k =>
    exfalso
    have hsome : (userTsMatchLen l).isSome = true := by rw [hu]; rfl
    obtain ⟨w, d, rest, hdec, _, _, _, _⟩ :=
      (userTsMatchLen_isSome_iff l).mp hsome
    refine h ?_
    rw [hdec]
    exact List.mem_append_right w (List.mem_cons_self '_' _)

lemma normalizePipeline_idem (l : List Char) :
    normalizePipeline (normalizePipeline l) = normalizePipeline l := by
  have hyU : '_' ∉ replacePct20 (underscoresToSpaces (stripUserTs (stripCompliantTag l))) := by
    intro hmem
    rcases mem_replacePct20
        (underscoresToSpaces (stripUserTs (stripCompliantTag l))).length
        (underscoresToSpaces (stripUserTs (stripCompliantTag l))) '_'
        (Nat.le_refl _) hmem with h2 | h2
    · exact underscore_not_mem_spaces _ h2
    · exact absurd h2 (by decide)
  have hy20 : hasPct20 (replacePct20 (underscoresToSpaces (stripUserTs (stripCompliantTag l)))) = false :=
    replacePct20_noPct _ _ (Nat.le_refl _)
  obtain ⟨a, b, hab⟩ :=
    jsTrimL_decomp (replacePct20 (underscoresToSpaces (stripUserTs (stripCompliantTag l))))
  set y := replacePct20 (underscoresToSpaces (stripUserTs (stripCompliantTag l))) with hy
  set t := jsTrimL y with ht
  have htU : '_' ∉ t := by
    intro hmem
    refine hyU ?_
    rw [hab]
    exact List.mem_append_left b (List.mem_append_right a hmem)
  have ht20 : hasPct20 t = false := by
    by_contra hcon
    rw [Bool.not_eq_false] at hcon
    obtain ⟨a2, b2, hab2⟩ := hasPct20_true_exists t hcon
    have htrue : hasPct20 y = true := by
      refine hasPct20_of_decomp (a ++ a2) y (b2 ++ b) ?_
      rw [hab, hab2]
      simp [List.append_assoc]
    rw [hy20] at htrue
    exact Bool.false_ne_true htrue
  show jsTrimL (replacePct20 (underscoresToSpaces (stripUserTs (stripCompliantTag t)))) = t
  rw [stripCompliantTag_eq_self t htU, stripUserTs_eq_self t htU,
    underscoresToSpaces_eq_self t htU, replacePct20_eq_self t ht20, ht]
  exact jsTrimL_idem y

/-- Claim C4: normalizePdfFilename returns an empty input unchanged, and on
a non-empty input removes a leading COMPLIANT_ tag, removes a leading
user/timestamp prefix (a non-empty run of alphanumeric-or-underscore
characters, an underscore, at least eight digits, and an underscore),
replaces every underscore and then every `%20` occurrence by a space, and
trims the result; the embedded backtracking matcher accepts exactly the
strings starting with that user/timestamp pattern, and when it removes a
prefix that prefix has exactly that shape. -/
theorem c4_normalize_pipeline (s : String) (l : List Char) :
    (s = "" → normalizePdfFilename s = s) ∧
    (s ≠ "" → (normalizePdfFilename s).data =
      jsTrimL (replacePct20 (underscoresToSpaces (stripUserTs (stripCompliantTag s.data))))) ∧
    stripCompliantTag l = (if compliantTag.isPrefixOf l then l.drop 10 else l) ∧
    ((userTsMatchLen l).isSome = true ↔ userTsPrefixed l) ∧
    (∀ k, userTsMatchLen l = some k →
      ∃ w d, l = w ++ '_' :: (d ++ '_' :: l.drop k) ∧ w ≠ [] ∧
        (∀ c ∈ w, isWordChar c = true) ∧ 8 ≤ d.length ∧
        (∀ c ∈ d, c.isDigit = true)) := by
  refine ⟨?_, ?_, rfl, userTsMatchLen_isSome_iff l,
    fun k hk => userTsMatchLen_some_decomp l k hk⟩
  · intro h
    unfold normalizePdfFilename
    rw [if_pos h]
  · intro h
    unfold normalizePdfFilename
    rw [if_neg h]
    rfl

/-- Claim C8: normalizePdfFilename is idempotent, because its output
contains no underscore and no `%20` occurrence and is already trimmed. -/
theorem c8_normalize_idempotent (s : String) :
    normalizePdfFilename (normalizePdfFilename s) = normalizePdfFilename s := by
  by_cases hs : s = ""
  · rw [hs]
    rfl
  · have hfs : normalizePdfFilename s = ⟨normalizePipeline s.data⟩ := by
      unfold normalizePdfFilename
      rw [if_neg hs]
    rw [hfs]
    by_cases hout : (⟨normalizePipeline s.data⟩ : String) = ""
    · rw [hout]
      rfl
    · unfold normalizePdfFilename
      rw [if_neg hout]
      exact congrArg String.mk (normalizePipeline_idem s.data)

/-- A string with a user/timestamp prefix, used by the C4 witness. -/
def utsDemo : List Char := ("user1_12345678_x").data

/-- Witness for C4 at concrete inputs. -/
theorem c4_normalize_pipeline_witness :
    (("sample.pdf" : String) ≠ "" ∧ userTsMatchLen utsDemo = some 15) ∧
    ((normalizePdfFilename ("sample.pdf")).data =
      jsTrimL (replacePct20 (underscoresToSpaces (stripUserTs
        (stripCompliantTag (("sample.pdf" : String)).data)))) ∧
     ∃ w d, utsDemo = w ++ '_' :: (d ++ '_' :: utsDemo.drop 15) ∧ w ≠ [] ∧
       (∀ c ∈ w, isWordChar c = true) ∧ 8 ≤ d.length ∧
       (∀ c ∈ d, c.isDigit = true)) :=
  ⟨⟨by decide, by decide⟩,
   (c4_normalize_pipeline ("sample.pdf") utsDemo).2.1 (by decide),
   (c4_normalize_pipeline ("sample.pdf") utsDemo).2.2.2.2 15 (by decide)⟩

/-- Witness for C6: the lookup of max_files_allowed through the theorem. -/
theorem c6_quota_attributes_witness :
    ((⟨"max_files_allowed", CognitoAttrType.number, true⟩ : CognitoCustomAttr)
        ∈ cdkCustomAttributes) ∧
    ((⟨"max_files_allowed", CognitoAttrType.number, true⟩ : CognitoCustomAttr).attrType
        = CognitoAttrType.number ∧
     (⟨"max_files_allowed", CognitoAttrType.number, true⟩ : CognitoCustomAttr).isMutable
        = true) :=
  ⟨c6_quota_attributes.1,
   c6_quota_attributes.2.2.2.2 _ c6_quota_attributes.1 (Or.inl rfl)⟩

lemma pcSessionStep_notReady (cfg : PCConfig) (env : PCTickEnv) (s : PCState)
    (hact : s.fileIntervalActive = true)
    (hatt : s.pollingAttempts = 0)
    (hready : s.isFileReady = false)
    (hupd : cfg.updatedFilename ≠ "")
    (hbucket : selectedBucketOf cfg ≠ "")
    (hcreds : env.credsAvailable = true)
    (hhead : env.headOk = false) :
    (pcSessionStep cfg env s).checksIssued = s.checksIssued + 1 ∧
    (pcSessionStep cfg env s).pollingAttempts = 0 ∧
    (pcSessionStep cfg env s).fileIntervalActive = true ∧
    (pcSessionStep cfg env s).timeIntervalActive = true ∧
    (pcSessionStep cfg env s).stepIntervalActive = true ∧
    (pcSessionStep cfg env s).isFileReady = false := by
  have hact' : ¬(s.fileIntervalActive = false) := by rw [hact]; decide
  have hmax : ¬(MAX_POLLING_ATTEMPTS ≤ s.pollingAttempts + 1) := by
    rw [hatt]; decide
  simp only [pcSessionStep, checkFileAvailabilityTick, effectRerun, hact',
    hmax, hcreds, hhead, hready]
  split_ifs with hb hdep hguard hdep2 <;>
    simp_all [clearAllIntervals]

/-- Claim C1 (code bug): the claimed 120-attempt bound is defeated by the
effect dependencies. The polling effect lists `pollingAttempts` in its
dependency array and its body resets the counter to 0, so every interval
firing tears the intervals down and restarts them with the counter back at
0: in a session whose result object never appears, after n cycles exactly
n existence checks have been issued, the counter is 0 and all three
intervals are still active — so the checks exceed MAX_POLLING_ATTEMPTS =
120 and the intervals are never cleared, contradicting the claimed bound
and the code's own comments. -/
theorem c1_polling_unbounded_bug :
    (∀ n : Nat,
      (pcSessionTrace pcDemoConfig (fun _ => ⟨true, false⟩) n).checksIssued = n ∧
      (pcSessionTrace pcDemoConfig (fun _ => ⟨true, false⟩) n).pollingAttempts = 0 ∧
      (pcSessionTrace pcDemoConfig (fun _ => ⟨true, false⟩) n).fileIntervalActive = true ∧
      (pcSessionTrace pcDemoConfig (fun _ => ⟨true, false⟩) n).timeIntervalActive = true ∧
      (pcSessionTrace pcDemoConfig (fun _ => ⟨true, false⟩) n).stepIntervalActive = true ∧
      (pcSessionTrace pcDemoConfig (fun _ => ⟨true, false⟩) n).isFileReady = false) ∧
    MAX_POLLING_ATTEMPTS = 120 ∧
    (pcSessionTrace pcDemoConfig (fun _ => ⟨true, false⟩)
        (MAX_POLLING_ATTEMPTS + 1)).checksIssued = MAX_POLLING_ATTEMPTS + 1 ∧
    ¬intervalsCleared (pcSessionTrace pcDemoConfig (fun _ => ⟨true, false⟩)
        (MAX_POLLING_ATTEMPTS + 1)) := by
  have hmain : ∀ n : Nat,
      (pcSessionTrace pcDemoConfig (fun _ => ⟨true, false⟩) n).checksIssued = n ∧
      (pcSessionTrace pcDemoConfig (fun _ => ⟨true, false⟩) n).pollingAttempts = 0 ∧
      (pcSessionTrace pcDemoConfig (fun _ => ⟨true, false⟩) n).fileIntervalActive = true ∧
      (pcSessionTrace pcDemoConfig (fun _ => ⟨true, false⟩) n).timeIntervalActive = true ∧
      (pcSessionTrace pcDemoConfig (fun _ => ⟨true, false⟩) n).stepIntervalActive = true ∧
      (pcSessionTrace pcDemoConfig (fun _ => ⟨true, false⟩) n).isFileReady = false := by
    intro n
    induction n with
    | zero => exact ⟨rfl, rfl, rfl, rfl, rfl, rfl⟩
    | succ n ih =>
      obtain ⟨h1, h2, h3, h4, h5, h6⟩ := ih
      have hstep := pcSessionStep_notReady pcDemoConfig ⟨true, false⟩
        (pcSessionTrace pcDemoConfig (fun _ => ⟨true, false⟩) n)
        h3 h2 h6 (by decide) (by decide) rfl rfl
      refine ⟨?_, hstep.2.1, hstep.2.2.1, hstep.2.2.2.1, hstep.2.2.2.2.1,
        hstep.2.2.2.2.2⟩
      show (pcSessionStep pcDemoConfig ⟨true, false⟩
        (pcSessionTrace pcDemoConfig (fun _ => ⟨true, false⟩) n)).checksIssued = n + 1
      rw [hstep.1, h1]
  refine ⟨hmain, rfl, (hmain (MAX_POLLING_ATTEMPTS + 1)).1, ?_⟩
  intro hcl
  have h3 := (hmain (MAX_POLLING_ATTEMPTS + 1)).2.2.1
  rw [hcl.1] at h3
  exact absurd h3 (by decide)
